import Mathlib

/-!
Verification of the CPS-language interpreter (Appel, *Compiling with
Continuations*, chapter 3) against its specification.  The Rust sources under
`src/interpreter` are shallowly embedded below: pure functions become Lean
functions, Rust panics (out-of-bounds indexing, `unwrap`, `unreachable!`)
become an explicit `abort` outcome, and the higher-order continuations of the
source are defunctionalised into the inductive `Continuation`, one constructor
per closure occurring in the source, with their behaviour given by
`Continuation.call`.  Machine integers (`i64`) are modelled as `Int` together
with explicit range conditions; `usize` casts are modelled by reduction
modulo `2 ^ 64`.
-/

namespace CPS

/-- `Variable` (interpreter/mod.rs): an identifier; equality is by name. -/
structure Variable where
  name : String
deriving DecidableEq, Repr

/-- `Location = usize` (interpreter/mod.rs): a nonnegative store address. -/
abbrev Location := Nat

/-- `Integer = i64` (interpreter/mod.rs).  Modelled as `Int`; the `i64` range
is imposed by the explicit checks of the checked arithmetic below. -/
abbrev Integer := Int

/-- Smallest `i64` value, `-(2^63)`. -/
def i64_min : Int := -(2 ^ 63)

/-- Largest `i64` value, `2^63 - 1`. -/
def i64_max : Int := 2 ^ 63 - 1

/-- `n` fits in the two's-complement `i64` range. -/
def fits_i64 (n : Int) : Prop := i64_min ≤ n ∧ n ≤ i64_max

instance (n : Int) : Decidable (fits_i64 n) := by
  unfold fits_i64; infer_instance

/-- The `i64::checked_add` of the source: the exact sum when it fits, `none`
(overflow) otherwise. -/
def checked_add (i j : Int) : Option Int :=
  if fits_i64 (i + j) then some (i + j) else none

/-- The `i64::checked_sub` of the source. -/
def checked_sub (i j : Int) : Option Int :=
  if fits_i64 (i - j) then some (i - j) else none

/-- The `i64::checked_mul` of the source. -/
def checked_mul (i j : Int) : Option Int :=
  if fits_i64 (i * j) then some (i * j) else none

/-- The `i64::checked_div` of the source: `none` on division by zero and on
the single overflowing case `i64::MIN / -1`; otherwise the quotient truncated
toward zero (`Int.tdiv`), which is Rust's `/` on integers. -/
def checked_div (i j : Int) : Option Int :=
  if j = 0 then none
  else if i = i64_min ∧ j = -1 then none
  else some (Int.tdiv i j)

/-- The `as usize` cast of the source: two's-complement reduction of an `i64`
value into `usize`, i.e. reduction modulo `2 ^ 64`. -/
def toUsize (i : Int) : Nat := (i % (2 ^ 64)).toNat

/-- `size_of::<DValue>()` on the reference 64-bit target: the largest variant
(`Record`: a 24-byte `Vec` plus an 8-byte `usize`) padded with the
discriminant to 40 bytes.  Only the facts that it is a fixed constant and is
larger than one matter to the theorems below. -/
def dvalue_size : Nat := 40

/-- `next_location` (primitive_op.rs): advances an address by
`size_of::<DValue>()` bytes — not by one slot. -/
def next_location (last_address : Location) : Location :=
  last_address + dvalue_size

/-- `arbitrarily` (interpreter/mod.rs): "arbitrarily" selects one of the two
provided alternatives; the implementation always selects the first. -/
def arbitrarily (a : Bool) (_b : Bool) : Bool := a

/-- `Real = OrderedFloat<f32>` (interpreter/mod.rs).  Floating-point
semantics is outside this embedding; the type is abstracted to a bit
pattern whose decidable equality stands for `OrderedFloat`'s total-order
equality.  No claim below depends on real arithmetic. -/
structure Real where
  bits : Nat
deriving DecidableEq, Repr

/-- A Rust `String` allocation: `addr` is the allocation identity (the value
of `as_ptr()`), `data` its byte contents.  In any Rust execution two `String`
values return equal `as_ptr()` only when they are the same allocation, in
which case their contents coincide as well; the model therefore treats the
pair (identity, contents) as the allocation. -/
structure Str where
  addr : Nat
  data : List Nat
deriving DecidableEq, Repr

/-- The `as_ptr() == as_ptr()` comparison in `DValue::eq`: true exactly on
the same allocation. -/
def strPtrEq (a b : Str) : Bool := a.addr == b.addr && a.data == b.data

/-- A `Range<Location>` of the source (`start..stop`; Rust's field `end` is a
Lean keyword). -/
structure Rng where
  start : Nat
  stop : Nat
deriving DecidableEq, Repr

/-- `Range::len()`: `stop - start` (0 for an inverted range). -/
def Rng.len (r : Rng) : Nat := r.stop - r.start

/-- `Exception` (exception.rs): exceptions of the interpreted program. -/
inductive Exception where
  | Overflow
  | DivideByZero
  | InvalidAccess
  | Undefined
  | IndexOutOfBounds
deriving DecidableEq, Repr

/-- `PrimitiveOp` (primitive_op.rs).  The ten floating-point primitives
(`FAdd` … `FLess`) are omitted: their semantics is IEEE-754 floating point,
outside this embedding, and no claim exercises them. -/
inductive PrimitiveOp where
  | Multiply
  | Add
  | Subtract
  | Divide
  | Tilde
  | IEqual
  | INEqual
  | Less
  | LessEqual
  | Greater
  | GreaterEqual
  | RangeCheck
  | Bang
  | Subscript
  | OrdinalOf
  | ColonEqual
  | UnboxedAssign
  | Update
  | UnboxedUpdate
  | Store
  | MakeRef
  | MakeRefUnboxed
  | ArrayLength
  | StringLength
  | GetHandler
  | SetHandler
  | Boxed
deriving DecidableEq, Repr

/-- `Value` (value.rs): atomic values appearing inside CPS terms. -/
inductive Value where
  | Variable (v : Variable)
  | Label (v : Variable)
  | Integer (i : Integer)
  | Real (r : Real)
  | String (s : Str)
deriving DecidableEq, Repr

/-- `AccessPath` (cps/store.rs). -/
inductive AccessPath where
  | Offset (k : Location)
  | Select (offset : Location) (access_path : AccessPath)
deriving DecidableEq, Repr

mutual

/-- `ContinuationExpression` (continuation_expression.rs): the seven CPS
expression forms.  (`variable` is a Lean keyword, so the binder fields are
named `var`.) -/
inductive ContinuationExpression where
  | Record (values : List (Value × AccessPath)) (var : Variable)
      (expression : ContinuationExpression)
  | Select (location : Location) (value : Value) (var : Variable)
      (expression : ContinuationExpression)
  | Offset (location : Location) (value : Value) (var : Variable)
      (expression : ContinuationExpression)
  | Apply (function : Value) (arguments : List Value)
  | Fix (function_defs : List FunctionDefinition)
      (expression : ContinuationExpression)
  | Switch (value : Value) (arms : List ContinuationExpression)
  | PrimitiveOp (operation : PrimitiveOp) (values : List Value)
      (vars : List Variable) (expressions : List ContinuationExpression)

/-- `FunctionDefinition` (continuation_expression.rs). -/
inductive FunctionDefinition where
  | mk (name : Variable) (formal_parameters : List Variable)
      (body : ContinuationExpression)

end

/-- Shorthand of the source. -/
abbrev CExp := ContinuationExpression

def FunctionDefinition.name : FunctionDefinition → Variable
  | .mk n _ _ => n

def FunctionDefinition.formal_parameters : FunctionDefinition → List Variable
  | .mk _ ps _ => ps

def FunctionDefinition.body : FunctionDefinition → ContinuationExpression
  | .mk _ _ b => b

mutual

/-- `DenotableValue` (cps/denotable_value.rs): the universe of runtime
values. -/
inductive DenotableValue where
  | Record (values : List DenotableValue) (idx : Location)
  | Integer (i : Integer)
  | Real (r : Real)
  | String (s : Str)
  | ByteArray (range : Rng)
  | Array (range : Rng)
  | UnboxedArray (range : Rng)
  | Function (f : Continuation)
  | Exception (e : Exception)

/-- The defunctionalised `RawContinuation`
(`dyn Fn(&Parameters, &Store) -> Answer`): one constructor per closure of the
source, carrying exactly the captured variables of that closure.  Their
behaviour is given by `Continuation.call` below.
  * `halt` — a terminal continuation supplied by the driver (spec §6): it
    records its arguments and stops the trampoline.
  * `primArmCont` — the per-arm continuation built in the `PrimitiveOp`
    branch of `ContinuationExpression::evaluate`, capturing the arm `c`, the
    ambient environment and the result variables `wl`.
  * `fixCont` — the closure built by `h` in the `Fix` branch, capturing the
    ambient environment `r1`, its own definition and the whole definition
    list.
  * the remaining constructors are the store-touching closures of
    `PrimitiveOp::evaluate` (`Subscript` on tagged/unboxed arrays,
    `Update`/`UnboxedUpdate`/`Store` writes, `MakeRef`/`MakeRefUnboxed`,
    `GetHandler`/`SetHandler`) and the closure of `Exception::as_answer`. -/
inductive Continuation where
  | halt
  | primArmCont (c : ContinuationExpression)
      (environment : List (Variable × DenotableValue)) (wl : List Variable)
  | fixCont (r1 : List (Variable × DenotableValue)) (fd : FunctionDefinition)
      (fl : List FunctionDefinition)
  | subscriptCont (range : Rng) (m : Integer) (k : Continuation)
  | subscriptIntCont (range : Rng) (m : Integer) (k : Continuation)
  | updateCont (range : Rng) (m : Integer) (v : DenotableValue)
      (k : Continuation)
  | updateIntCont (range : Rng) (m : Integer) (v : Integer) (k : Continuation)
  | makeRefCont (v : DenotableValue) (k : Continuation)
  | makeRefUnboxedCont (v : Integer) (k : Continuation)
  | getHandlerCont (k : Continuation)
  | setHandlerCont (handler : DenotableValue) (k : Continuation)
  | exceptionCont

end

/-- Shorthands of the source. -/
abbrev DValue := DenotableValue

abbrev DenotableFunction := Continuation

abbrev DValueList := List DenotableValue

/-- `ZERO` (cps/denotable_value.rs). -/
def ZERO : DenotableValue := DenotableValue.Integer 0

/-- `Environment` (environment.rs): a map from variables to denotable
values.  The Rust `HashMap` is modelled as an association list in which the
most recent insertion is found first; `get`, `insert` and the derived
operations below agree observationally with the hash map. -/
abbrev Environment := List (Variable × DenotableValue)

mutual

/-- `impl PartialEq for DValue` — the `eq` function of Appel
(cps/denotable_value.rs).  The first component is the boolean the Rust
function returns; the second records whether
`raise_exception(InternalException::Undefined)` was invoked, i.e. whether the
internal `Undefined` diagnostic was printed to stderr (the Rust
`raise_exception` only prints — it does not unwind or abort). -/
def DenotableValue.eq : DenotableValue → DenotableValue → Bool × Bool
  | .Record values_lhs idx_lhs, .Record values_rhs idx_rhs =>
    let l := eqDValueVec values_lhs values_rhs
    (arbitrarily (l.1 && (idx_lhs == idx_rhs)) false, l.2)
  | .Integer a, .Integer b => (a == b, false)
  | .Real a, .Real b => (a == b, false)
  | .String a, .String b => (arbitrarily (strPtrEq a b) false, false)
  | .ByteArray range_a, .ByteArray range_b => (range_a == range_b, false)
  | .Array range_a, .Array range_b => (range_a == range_b, false)
  | .UnboxedArray range_a, .UnboxedArray range_b => (range_a == range_b, false)
  | .Function _, .Function _ => (false, true)
  | _, _ => (false, false)
termination_by a _ => (sizeOf a, 0)
decreasing_by all_goals (simp_wf; omega)

/-- `Vec<DValue> == Vec<DValue>`: Rust's slice equality compares the lengths
first (no element comparison — hence no diagnostics — on a length mismatch)
and then the elements pairwise, short-circuiting at the first inequality. -/
def eqDValueVec (as : List DenotableValue) (bs : List DenotableValue) :
    Bool × Bool :=
  if as.length = bs.length then eqDValuePairs as bs else (false, false)
termination_by (sizeOf as, 1)
decreasing_by all_goals omega

/-- Pairwise element comparison of Rust slice equality, short-circuiting. -/
def eqDValuePairs : List DenotableValue → List DenotableValue → Bool × Bool
  | [], [] => (true, false)
  | a :: as, b :: bs =>
    let h := DenotableValue.eq a b
    if h.1 then
      let t := eqDValuePairs as bs
      (t.1, h.2 || t.2)
    else (false, h.2)
  | _, _ => (false, false)
termination_by as _ => (sizeOf as, 0)
decreasing_by all_goals (simp_wf; omega)

end

/-- `Environment::get` (environment.rs): `self.bindings.get(variable)`. -/
def Environment.get : Environment → Variable → Option DenotableValue
  | [], _ => none
  | (k, d) :: rest, v => if k = v then some d else Environment.get rest v

/-- `HashMap::insert` as observed through `get`: the new binding shadows any
older one. -/
def Environment.insert (env : Environment) (v : Variable)
    (d : DenotableValue) : Environment :=
  (v, d) :: env

/-- `Environment::bind` (environment.rs): if `variable` is already bound to a
value that compares equal under `DValue::eq`, the environment is returned
unchanged (sharing optimisation); otherwise the binding is inserted. -/
def Environment.bind (env : Environment) (v : Variable)
    (value : DenotableValue) : Environment :=
  match Environment.get env v with
  | some found => if (DenotableValue.eq found value).1 then env
                  else Environment.insert env v value
  | none => Environment.insert env v value

/-- `Environment::bindn` (environment.rs): batch bind via
`extend(variables.zip(values))`; `zip` truncates to the shorter list, and
later insertions shadow earlier ones, exactly as `HashMap::extend`. -/
def Environment.bindn (env : Environment) (vars : List Variable)
    (values : List DenotableValue) : Environment :=
  (vars.zip values).foldl (fun e p => Environment.insert e p.1 p.2) env

/-- `Environment::value_to_denotable_value` (environment.rs) — the function
`V` of Appel.  Looking up an unbound variable indexes the `HashMap` and
panics: that is the `none` outcome.  (A `String` literal is cloned in Rust,
so repeated evaluations yield fresh allocations; the model keeps the
literal's own allocation identity, which no claim observes.) -/
def Environment.value_to_denotable_value (env : Environment) :
    Value → Option DenotableValue
  | .Variable v => Environment.get env v
  | .Label v => Environment.get env v
  | .Integer i => some (.Integer i)
  | .Real r => some (.Real r)
  | .String s => some (.String s)

/-- `Store` (cps/store.rs): next unused location, the handler location, the
tagged cells and the integer cells. -/
structure Store where
  next_unused_address : Location
  exception_handler : Location
  values : List DenotableValue
  integer_values : List Integer

/-- `Store::fetch` (cps/store.rs): `self.values.get(idx).unwrap()` — reads a
tagged cell; out of range panics (`none`). -/
def Store.fetch (s : Store) (idx : Location) : Option DenotableValue :=
  s.values.get? idx

/-- `Store::fetch_integer` (cps/store.rs): reads `integer_values[idx]` and
wraps it in `DValue::Integer`; out of range panics (`none`). -/
def Store.fetch_integer (s : Store) (idx : Location) : Option DenotableValue :=
  (s.integer_values.get? idx).map (fun n => .Integer n)

/-- `Store::update` (cps/store.rs): functional update.  An `Integer` value is
written to `integer_values`, any other value to `values`; the indexing
`vec[idx] = …` panics (`none`) when `idx` is out of range — the vectors are
never grown. -/
def Store.update (s : Store) (idx : Location) (value : DenotableValue) :
    Option Store :=
  match value with
  | .Integer i =>
    if idx < s.integer_values.length then
      some { s with integer_values := s.integer_values.set idx i }
    else none
  | _ =>
    if idx < s.values.length then
      some { s with values := s.values.set idx value }
    else none

/-- `Store::update_integer` (cps/store.rs). -/
def Store.update_integer (s : Store) (idx : Location) (value : Integer) :
    Option Store :=
  if idx < s.integer_values.length then
    some { s with integer_values := s.integer_values.set idx value }
  else none

/-- `Answer` (cps/continuation.rs): a raw continuation paired with its
already-supplied parameters. -/
structure Answer where
  f : Continuation
  parameters : List DenotableValue

/-- `Exception::as_answer` (exception.rs): an `Answer` whose closure, once a
store arrives, delegates to `Store::raise_exception`. -/
def Exception.as_answer (e : Exception) : Answer :=
  ⟨.exceptionCont, [.Exception e]⟩

/-- `resolve_field` (cps/denotable_value.rs) — the function `F` of Appel.
The arm order matters: `Offset(0)` returns any value unchanged; a bad index
into `values` panics (`none`); a non-record off the path yields the value
`DValue::Exception(InvalidAccess)` (a value, not an answer). -/
def resolve_field (value : DenotableValue) (access_path : AccessPath) :
    Option DenotableValue :=
  match value, access_path with
  | x, .Offset 0 => some x
  | .Record values idx, .Offset j => some (.Record values (idx + j))
  | .Record values idx, .Select offset access_path =>
    match values.get? (idx + offset) with
    | some v => resolve_field v access_path
    | none => none
  | _, _ => some (.Exception Exception.InvalidAccess)

/-- Result of the two store-free stages (`ContinuationExpression::evaluate`
and `PrimitiveOp::evaluate`): an `Answer`, an interpreter abort (Rust panic:
out-of-bounds indexing, `unwrap` failure or `unreachable!()`), or fuel
exhaustion of the model (the Rust functions are total; every theorem below
supplies enough fuel). -/
inductive EvalResult where
  | ok (a : Answer)
  | abort
  | timeout

/-- Result of driving an `Answer` with a `Store`: the `halt` continuation was
reached with its final arguments and store, the interpreter aborted (Rust
panic), or the model's fuel ran out. -/
inductive Trace where
  | halted (parameters : List DenotableValue) (store : Store)
  | abort
  | timeout

/-- `PrimitiveOp::evaluate` (primitive_op.rs): dispatch on the triple
(operation, parameter shapes, continuation count).  Match arms appear in
source order (the `Divide`-by-literal-0 arm precedes the general `Divide`
arm and accepts any continuation count).  A continuation called as `c(args)`
curries into `Answer ⟨c, args⟩`; store-touching operations package one of
the defunctionalised closures instead.  For two-continuation predicates the
source pops `f` (the last element) then `t`, so a list `[t, f]` is
then-first.  The fall-through arm is `unreachable!()` — an abort; the ten
floating-point arms, outside this embedding, also map to the fall-through. -/
def PrimitiveOp.evaluate (fuel : Nat) (op : PrimitiveOp)
    (parameters : List DenotableValue)
    (continuation_list : List Continuation) : EvalResult :=
  match fuel with
  | 0 => .timeout
  | fuel + 1 =>
    match op, parameters, continuation_list with
    | .Multiply, [.Integer i, .Integer j], [c] =>
      match checked_mul i j with
      | some k => .ok ⟨c, [.Integer k]⟩
      | none => .ok (Exception.as_answer .Overflow)
    | .Add, [.Integer i, .Integer j], [c] =>
      match checked_add i j with
      | some k => .ok ⟨c, [.Integer k]⟩
      | none => .ok (Exception.as_answer .Overflow)
    | .Subtract, [.Integer i, .Integer j], [c] =>
      match checked_sub i j with
      | some k => .ok ⟨c, [.Integer k]⟩
      | none => .ok (Exception.as_answer .Overflow)
    | .Divide, [.Integer _, .Integer 0], _ =>
      .ok (Exception.as_answer .DivideByZero)
    | .Divide, [.Integer i, .Integer j], [c] =>
      match checked_div i j with
      | some k => .ok ⟨c, [.Integer k]⟩
      | none => .ok (Exception.as_answer .Overflow)
    | .Tilde, [.Integer i], [c] =>
      match checked_sub 0 i with
      | some k => .ok ⟨c, [.Integer k]⟩
      | none => .ok (Exception.as_answer .Overflow)
    | .IEqual, [a, b], [t, f] =>
      if (DenotableValue.eq a b).1 then .ok ⟨t, []⟩ else .ok ⟨f, []⟩
    | .INEqual, [a, b], [t, f] =>
      if (DenotableValue.eq a b).1 then .ok ⟨f, []⟩ else .ok ⟨t, []⟩
    | .Less, [.Integer i, .Integer j], [t, f] =>
      if i < j then .ok ⟨t, []⟩ else .ok ⟨f, []⟩
    | .LessEqual, [.Integer i, .Integer j], [t, f] =>
      if i ≤ j then .ok ⟨t, []⟩ else .ok ⟨f, []⟩
    | .Greater, [.Integer i, .Integer j], [t, f] =>
      if i > j then .ok ⟨t, []⟩ else .ok ⟨f, []⟩
    | .GreaterEqual, [.Integer i, .Integer j], [t, f] =>
      if i ≥ j then .ok ⟨t, []⟩ else .ok ⟨f, []⟩
    | .RangeCheck, [.Integer i, .Integer j], [t, f] =>
      if j < 0 then
        if i < 0 then
          if i < j then .ok ⟨t, []⟩ else .ok ⟨f, []⟩
        else .ok ⟨t, []⟩
      else if i < 0 then .ok ⟨f, []⟩
      else if i < j then .ok ⟨t, []⟩
      else .ok ⟨f, []⟩
    | .Bang, [a], [c] =>
      PrimitiveOp.evaluate fuel .Subscript [a, .Integer 0] [c]
    | .Subscript, [.Array array_range, .Integer n], [c] =>
      .ok ⟨.subscriptCont array_range n c, []⟩
    | .Subscript, [.UnboxedArray array_range, .Integer n], [c] =>
      .ok ⟨.subscriptIntCont array_range n c, []⟩
    | .Subscript, [.Record values i, .Integer j], [c] =>
      match values.get? (i + toUsize j) with
      | some v => .ok ⟨c, [v]⟩
      | none => .abort
    | .OrdinalOf, [.String a, .Integer i], [c] =>
      match a.data.get? (toUsize i) with
      | some byte => .ok ⟨c, [.Integer (byte : Int)]⟩
      | none => .abort
    | .ColonEqual, [.Array array_range, value], [c] =>
      PrimitiveOp.evaluate fuel .Update [.Array array_range, ZERO, value] [c]
    | .UnboxedAssign, [a, v], [c] =>
      PrimitiveOp.evaluate fuel .UnboxedUpdate [a, ZERO, v] [c]
    | .Update, [.Array array_range, .Integer n, value], [c] =>
      .ok ⟨.updateCont array_range n value c, []⟩
    | .Update, [.UnboxedArray array_range, .Integer n, .Integer value], [c] =>
      .ok ⟨.updateIntCont array_range n value c, []⟩
    | .UnboxedUpdate, [.Array array_range, .Integer n, .Integer value], [c] =>
      .ok ⟨.updateCont array_range n (.Integer value) c, []⟩
    | .UnboxedUpdate,
        [.UnboxedArray array_range, .Integer n, .Integer value], [c] =>
      .ok ⟨.updateIntCont array_range n value c, []⟩
    | .Store, [.ByteArray array_range, .Integer i, .Integer v], [c] =>
      if v < 0 ∨ 256 ≤ v then .ok (Exception.as_answer .Overflow)
      else .ok ⟨.updateIntCont array_range i v c, []⟩
    | .MakeRef, [value], [c] => .ok ⟨.makeRefCont value c, []⟩
    | .MakeRefUnboxed, [.Integer value], [c] =>
      .ok ⟨.makeRefUnboxedCont value c, []⟩
    | .ArrayLength, [.Array array_range], [c] =>
      .ok ⟨c, [.Integer (array_range.len : Int)]⟩
    | .ArrayLength, [.UnboxedArray array_range], [c] =>
      .ok ⟨c, [.Integer (array_range.len : Int)]⟩
    | .StringLength, [.ByteArray array_range], [c] =>
      .ok ⟨c, [.Integer (array_range.len : Int)]⟩
    | .StringLength, [.String s], [c] =>
      .ok ⟨c, [.Integer (s.data.length : Int)]⟩
    | .GetHandler, [], [c] => .ok ⟨.getHandlerCont c, []⟩
    | .SetHandler, [new_handler], [c] =>
      .ok ⟨.setHandlerCont new_handler c, []⟩
    | .Boxed, [.Integer _], [_t, f] => .ok ⟨f, []⟩
    | .Boxed, [.Real _], [_t, f] => .ok ⟨f, []⟩
    | .Boxed, [.Record _ _], [t, _f] => .ok ⟨t, []⟩
    | .Boxed, [.String _], [t, _f] => .ok ⟨t, []⟩
    | .Boxed, [.Array _], [t, _f] => .ok ⟨t, []⟩
    | .Boxed, [.UnboxedArray _], [t, _f] => .ok ⟨t, []⟩
    | .Boxed, [.ByteArray _], [t, _f] => .ok ⟨t, []⟩
    | .Boxed, [.Function _], [t, _f] => .ok ⟨t, []⟩
    | _, _, _ => .abort

/-- The function `h` of the `Fix` branch (continuation_expression.rs): builds
the closure value for one function definition, capturing the ambient
environment `r1`, the definition and the whole definition list. -/
def hFix (r1 : Environment) (function_def : FunctionDefinition)
    (fl : List FunctionDefinition) : DenotableValue :=
  .Function (.fixCont r1 function_def fl)

/-- The function `g` of the `Fix` branch (continuation_expression.rs):
augments `r` by binding every function name of `fl` to its closure
(`h r fd fl`). -/
def gFix (r : Environment) (fl : List FunctionDefinition) : Environment :=
  Environment.bindn r (fl.map FunctionDefinition.name)
    (fl.map (fun fd => hFix r fd fl))

/-- `ContinuationExpression::evaluate` (continuation_expression.rs).  The
Rust function is total by structural recursion (applying a continuation only
curries into an `Answer`); the fuel only drives Lean's recursion and every
theorem below supplies enough of it.  Rust panics (unbound variable lookup,
out-of-bounds indexing) are the `abort` outcome. -/
def ContinuationExpression.evaluate (fuel : Nat)
    (e : ContinuationExpression) (environment : Environment) : EvalResult :=
  match fuel with
  | 0 => .timeout
  | fuel + 1 =>
    match e with
    | .Record values var expression =>
      match values.mapM (fun p =>
          (Environment.value_to_denotable_value environment p.1).bind
            (fun d => resolve_field d p.2)) with
      | some d_values =>
        ContinuationExpression.evaluate fuel expression
          (Environment.bind environment var (.Record d_values 0))
      | none => .abort
    | .Select i v_value w_variable e_cexp =>
      match Environment.value_to_denotable_value environment v_value with
      | some (.Record values idx) =>
        match values.get? (i + idx) with
        | some d =>
          ContinuationExpression.evaluate fuel e_cexp
            (Environment.bind environment w_variable d)
        | none => .abort
      | some _ => .ok (Exception.as_answer .InvalidAccess)
      | none => .abort
    | .Offset i v_value w_variable e_cexp =>
      match Environment.value_to_denotable_value environment v_value with
      | some (.Record values idx) =>
        ContinuationExpression.evaluate fuel e_cexp
          (Environment.bind environment w_variable (.Record values (i + idx)))
      | some _ => .ok (Exception.as_answer .InvalidAccess)
      | none => .abort
    | .Apply f_value l_values =>
      match Environment.value_to_denotable_value environment f_value with
      | some (.Function denotable_function) =>
        match l_values.mapM
            (Environment.value_to_denotable_value environment) with
        | some ps => .ok ⟨denotable_function, ps⟩
        | none => .abort
      | some _ => .ok (Exception.as_answer .Undefined)
      | none => .abort
    | .Fix fl_list e_cexp =>
      ContinuationExpression.evaluate fuel e_cexp (gFix environment fl_list)
    | .Switch value el_cexp_list =>
      match Environment.value_to_denotable_value environment value with
      | some (.Integer i) =>
        match el_cexp_list.get? (toUsize i) with
        | some arm => ContinuationExpression.evaluate fuel arm environment
        | none => .abort
      | some _ => .ok (Exception.as_answer .IndexOutOfBounds)
      | none => .abort
    | .PrimitiveOp p vl wl el =>
      match vl.mapM (Environment.value_to_denotable_value environment) with
      | some d_values =>
        PrimitiveOp.evaluate (fuel + 1) p d_values
          (el.map (fun c => .primArmCont c environment wl))
      | none => .abort

/-- The behaviour of the defunctionalised closures: `Continuation.call fuel k
ps s` is the Rust call `(k.f)(&ps, &s)`, run to a terminal outcome.  Each
arm is the body of the corresponding closure in the source; results that are
`Answer`s applied to a store continue through `Continuation.call` itself
(that is the only recursion, hence the fuel).  The `exceptionCont` arm
inlines `Store::raise_exception`: it reads `values[exception_handler]`
directly and panics unless that cell holds a `Function`. -/
def Continuation.call (fuel : Nat) (k : Continuation)
    (parameters : List DenotableValue) (store : Store) : Trace :=
  match fuel with
  | 0 => .timeout
  | fuel + 1 =>
    match k with
    | .halt => .halted parameters store
    | .primArmCont c environment wl =>
      match ContinuationExpression.evaluate fuel c
          (Environment.bindn environment wl parameters) with
      | .ok a => Continuation.call fuel a.f a.parameters store
      | .abort => .abort
      | .timeout => .timeout
    | .fixCont r1 function_def fl =>
      match ContinuationExpression.evaluate fuel function_def.body
          (Environment.bindn (gFix r1 fl) function_def.formal_parameters
            parameters) with
      | .ok a => Continuation.call fuel a.f a.parameters store
      | .abort => .abort
      | .timeout => .timeout
    | .subscriptCont range m c =>
      match Store.fetch store (range.start + toUsize m) with
      | some i => Continuation.call fuel c [i] store
      | none => .abort
    | .subscriptIntCont range m c =>
      match Store.fetch_integer store (range.start + toUsize m) with
      | some i => Continuation.call fuel c [i] store
      | none => .abort
    | .updateCont range m v c =>
      match Store.update store (range.start + toUsize m) v with
      | some new_store => Continuation.call fuel c [] new_store
      | none => .abort
    | .updateIntCont range m v c =>
      match Store.update_integer store (range.start + toUsize m) v with
      | some new_store => Continuation.call fuel c [] new_store
      | none => .abort
    | .makeRefCont v c =>
      let last_address := store.next_unused_address
      match Store.update store last_address v with
      | some new_store =>
        Continuation.call fuel c [.Array ⟨last_address, last_address + 1⟩]
          { new_store with
              next_unused_address := next_location last_address }
      | none => .abort
    | .makeRefUnboxedCont v c =>
      let last_address := store.next_unused_address
      match Store.update_integer store last_address v with
      | some new_store =>
        Continuation.call fuel c [.Array ⟨last_address, last_address + 1⟩]
          { new_store with
              next_unused_address := next_location last_address }
      | none => .abort
    | .getHandlerCont c =>
      match Store.fetch store store.exception_handler with
      | some v => Continuation.call fuel c [v] store
      | none => .abort
    | .setHandlerCont handler c =>
      match Store.update store store.exception_handler handler with
      | some new_store => Continuation.call fuel c [] new_store
      | none => .abort
    | .exceptionCont =>
      match parameters with
      | [.Exception e] =>
        match store.values.get? store.exception_handler with
        | some (.Function continuation) =>
          Continuation.call fuel continuation [.Exception e] store
        | some _ => .abort
        | none => .abort
      | _ => .abort

/-- Applying an `Answer` to a `Store` (the `Fn<(&Store,)>` impl in
cps/continuation.rs): calls the enclosed raw continuation with the bound
parameters. -/
def Answer.call (fuel : Nat) (a : Answer) (store : Store) : Trace :=
  Continuation.call fuel a.f a.parameters store

/-- The driver of spec §6: evaluate the expression to an `Answer` and apply
it to the initial store, trampolining until `halt`, an abort, or fuel
exhaustion. -/
def run (fuel : Nat) (e : ContinuationExpression) (environment : Environment)
    (store : Store) : Trace :=
  match ContinuationExpression.evaluate fuel e environment with
  | .ok a => Answer.call fuel a store
  | .abort => .abort
  | .timeout => .timeout

/-- Construction of a `DValue::Record` from a fresh `Vec` allocation: `alloc`
is the allocation identity of the backing vector.  The Rust value retains
the `Vec` pointer, but no interpreter operation — in particular not
`DValue::eq`, which compares `values_lhs == values_rhs && idx_lhs ==
idx_rhs` — ever consults it, so the model's record value drops it.  The
wrapper exists to state claims about records that are *distinct
allocations*. -/
def mkRecord (_alloc : Nat) (fields : List DenotableValue) (offset : Nat) :
    DenotableValue :=
  DenotableValue.Record fields offset

/-- Variables of the end-to-end scenarios (spec §8). -/
def haltVar : Variable := ⟨"halt"⟩

def rVar : Variable := ⟨"r"⟩

def xVar : Variable := ⟨"x"⟩

/-- Scenario *S5 — Reference cell* (spec §8):
`PrimOp(makeref, [Int(0)], [r], [PrimOp(:=, [Var r, Int(7)], [],
[PrimOp(!, [Var r], [x], [Apply(halt, [Var x])])])])`. -/
def s5_term : ContinuationExpression :=
  .PrimitiveOp .MakeRef [.Integer 0] [rVar]
    [.PrimitiveOp .ColonEqual [.Variable rVar, .Integer 7] []
      [.PrimitiveOp .Bang [.Variable rVar] [xVar]
        [.Apply (.Variable haltVar) [.Variable xVar]]]]

/-- The S5 environment: `halt` bound to a recording (terminal) function. -/
def s5_env : Environment := [(haltVar, .Function .halt)]

/-- The S5 initial store: one allocated cell at location 0 (tagged content
`Integer 0`, integer cell `0`), bump pointer at 0, handler slot 0. -/
def s5_store : Store := ⟨0, 0, [.Integer 0], [0]⟩

/-! ### Helper lemmas -/

theorem get_insert_self (env : Environment) (v : Variable)
    (d : DenotableValue) :
    Environment.get (Environment.insert env v d) v = some d := by
  simp [Environment.insert, Environment.get]

theorem get_insert_ne (env : Environment) (v u : Variable)
    (d : DenotableValue) (h : u ≠ v) :
    Environment.get (Environment.insert env v d) u = Environment.get env u := by
  simp only [Environment.insert, Environment.get]
  rw [if_neg (fun hvu => h hvu.symm)]

/-- If the pairwise comparison of Rust slice equality succeeds, the lists are
(structurally) equal, provided each left element's equality implies
structural equality. -/
theorem eqDValuePairs_true_of (as bs : List DenotableValue)
    (ih : ∀ x ∈ as, ∀ y, (DenotableValue.eq x y).1 = true → x = y)
    (h : (eqDValuePairs as bs).1 = true) : as = bs := by
  induction as generalizing bs with
  | nil => cases bs with
    | nil => rfl
    | cons b bs => simp [eqDValuePairs] at h
  | cons a as ihl =>
    cases bs with
    | nil => simp [eqDValuePairs] at h
    | cons b bs =>
      unfold eqDValuePairs at h
      by_cases hab : (DenotableValue.eq a b).1 = true
      · simp only [hab, if_true] at h
        have h1 := ih a (List.mem_cons_self a as) b hab
        have h2 := ihl bs (fun x hx => ih x (List.mem_cons_of_mem a hx)) h
        rw [h1, h2]
      · simp only [Bool.not_eq_true] at hab
        simp [hab] at h

/-- `DValue::eq` returning `true` implies structural equality of the model
values: `eq` is structural on every variant it accepts (string pointer
equality only holds on the same allocation, which in the model carries its
contents). -/
theorem eq_true_implies_equal :
    ∀ (a b : DenotableValue), (DenotableValue.eq a b).1 = true → a = b
  | .Record vs i, b, h => by
    cases b <;> simp only [DenotableValue.eq] at h <;> try simp at h
    case Record ws j =>
      simp only [arbitrarily, Bool.and_eq_true, beq_iff_eq] at h
      obtain ⟨h1, h2⟩ := h
      subst h2
      have hvw : vs = ws := by
        unfold eqDValueVec at h1
        split at h1
        · exact eqDValuePairs_true_of vs ws
            (fun x hx y hy => eq_true_implies_equal x y hy) h1
        · simp at h1
      rw [hvw]
  | .Integer a, b, h => by
    cases b <;> simp only [DenotableValue.eq] at h <;> try simp at h
    case Integer b => rw [h]
  | .Real a, b, h => by
    cases b <;> simp only [DenotableValue.eq] at h <;> try simp at h
    case Real b => rw [h]
  | .String a, b, h => by
    cases b <;> simp only [DenotableValue.eq] at h <;> try simp at h
    case String b =>
      simp only [arbitrarily, strPtrEq, Bool.and_eq_true, beq_iff_eq] at h
      obtain ⟨h1, h2⟩ := h
      cases a; cases b; simp_all
  | .ByteArray r, b, h => by
    cases b <;> simp only [DenotableValue.eq] at h <;> try simp at h
    case ByteArray r2 => rw [h]
  | .Array r, b, h => by
    cases b <;> simp only [DenotableValue.eq] at h <;> try simp at h
    case Array r2 => rw [h]
  | .UnboxedArray r, b, h => by
    cases b <;> simp only [DenotableValue.eq] at h <;> try simp at h
    case UnboxedArray r2 => rw [h]
  | .Function f, b, h => by
    cases b <;> simp only [DenotableValue.eq] at h <;> simp at h
  | .Exception e, b, h => by
    cases b <;> simp only [DenotableValue.eq] at h <;> simp at h
termination_by a _ _ => (sizeOf a, 0)
decreasing_by
  all_goals simp_wf
  all_goals (have hsz := List.sizeOf_lt_of_mem hx; omega)

theorem get_foldl_insert_of_not_mem (ps : List (Variable × DenotableValue))
    (env : Environment) (k : Variable) (hk : k ∉ ps.map Prod.fst) :
    Environment.get
      (ps.foldl (fun e p => Environment.insert e p.1 p.2) env) k =
      Environment.get env k := by
  induction ps generalizing env with
  | nil => rfl
  | cons p ps ih =>
    simp only [List.map_cons, List.mem_cons, not_or] at hk
    simp only [List.foldl_cons]
    rw [ih (Environment.insert env p.1 p.2) hk.2,
        get_insert_ne env p.1 k p.2 hk.1]

theorem get_foldl_insert_of_mem (ps : List (Variable × DenotableValue))
    (env : Environment) (k : Variable) (v : DenotableValue)
    (hnd : (ps.map Prod.fst).Nodup) (hmem : (k, v) ∈ ps) :
    Environment.get
      (ps.foldl (fun e p => Environment.insert e p.1 p.2) env) k = some v := by
  induction ps generalizing env with
  | nil => cases hmem
  | cons p ps ih =>
    simp only [List.map_cons, List.nodup_cons] at hnd
    simp only [List.foldl_cons]
    rcases List.mem_cons.mp hmem with heq | hmem2
    · subst heq
      have hnot : k ∉ ps.map Prod.fst := by
        simpa using hnd.1
      rw [get_foldl_insert_of_not_mem ps _ k hnot, get_insert_self]
    · exact ih (Environment.insert env p.1 p.2) hnd.2 hmem2

/-- `g` binds every function name of the definition list to its closure
(provided the names are distinct). -/
theorem get_gFix (r : Environment) (fl : List FunctionDefinition)
    (fd : FunctionDefinition) (hmem : fd ∈ fl)
    (hnd : (fl.map FunctionDefinition.name).Nodup) :
    Environment.get (gFix r fl) fd.name =
      some (.Function (.fixCont r fd fl)) := by
  unfold gFix Environment.bindn
  rw [List.zip_map']
  refine get_foldl_insert_of_mem _ r fd.name (hFix r fd fl) ?_ ?_
  · simpa using hnd
  · exact List.mem_map_of_mem (fun fd2 => (fd2.name, hFix r fd2 fl)) hmem

theorem toUsize_of_nonneg_small (i : Int) (h0 : 0 ≤ i) (h1 : i < 2 ^ 64) :
    toUsize i = i.toNat := by
  unfold toUsize
  omega

theorem toUsize_lower_of_neg (i : Int) (h0 : i64_min ≤ i) (h1 : i < 0) :
    2 ^ 63 ≤ toUsize i := by
  unfold toUsize i64_min at *
  omega

/-- The truncated quotient of two in-range `i64` values fits in `i64` except
in the single case `i64::MIN / -1`. -/
theorem tdiv_fits (i j : Int) (hi : fits_i64 i) (hj : fits_i64 j)
    (hj0 : j ≠ 0) (hexc : ¬(i = i64_min ∧ j = -1)) :
    fits_i64 (Int.tdiv i j) := by
  have hnat : (Int.tdiv i j).natAbs = i.natAbs / j.natAbs :=
    Int.natAbs_tdiv i j
  unfold fits_i64 i64_min i64_max at *
  have h1 : i.natAbs ≤ 2 ^ 63 := by omega
  have h2 : 1 ≤ j.natAbs := by omega
  have hq : i.natAbs / j.natAbs ≤ i.natAbs := Nat.div_le_self _ _
  by_cases htop : i.natAbs / j.natAbs = 2 ^ 63
  · -- only possible when `i = i64::MIN` and `j = ±1`; `j = -1` is excluded
    -- and `j = 1` gives the (fitting) quotient `i64::MIN` itself.
    have hj1 : j.natAbs = 1 := by
      by_contra hj2
      have h2le : 2 ≤ j.natAbs := by omega
      have ha : i.natAbs / j.natAbs ≤ i.natAbs / 2 :=
        Nat.div_le_div_left h2le (by omega)
      have hb : i.natAbs / 2 ≤ 2 ^ 63 / 2 := Nat.div_le_div_right h1
      omega
    have hiMin : i.natAbs = 2 ^ 63 := by
      rw [hj1, Nat.div_one] at htop
      exact htop
    have hjv : j = 1 ∨ j = -1 := by omega
    rcases hjv with hjv | hjv
    · subst hjv
      rw [Int.tdiv_one]
      omega
    · exact absurd ⟨by omega, hjv⟩ hexc
  · omega

/-! ### Claims -/

/-- **C1, counterexample.**  Two `DValue::Record` values that are distinct
allocations (allocation ids 1 and 2) with field-for-field equal contents and
equal offsets: the claim demands `eq` return `false`, but `eq` compares the
contents (never the `Vec` pointer) and returns `true`. -/
theorem c1_counterexample :
    (1 : Nat) ≠ 2 ∧
      (DenotableValue.eq (mkRecord 1 [ZERO] 0) (mkRecord 2 [ZERO] 0)).1 =
        true := by
  constructor
  · decide
  · simp [mkRecord, ZERO, DenotableValue.eq, eqDValueVec, eqDValuePairs,
      arbitrarily]

/-- **C1 (amended).**  `eq` on two `String`s returns `false` whenever the
allocations differ (it compares `as_ptr()`), but `eq` on two `Record`s is
independent of allocation identity: it returns exactly the conjunction of
pairwise field equality and offset equality, so distinct record allocations
with equal contents compare `true`. -/
theorem c1_string_record_equality (s₁ s₂ : Str) (hne : s₁.addr ≠ s₂.addr)
    (a₁ a₂ : Nat) (fs₁ fs₂ : List DenotableValue) (i₁ i₂ : Nat) :
    (DenotableValue.eq (.String s₁) (.String s₂)).1 = false ∧
      (DenotableValue.eq (mkRecord a₁ fs₁ i₁) (mkRecord a₂ fs₂ i₂)).1 =
        ((eqDValueVec fs₁ fs₂).1 && (i₁ == i₂)) := by
  constructor
  · simp [DenotableValue.eq, arbitrarily, strPtrEq, hne]
  · simp [mkRecord, DenotableValue.eq, arbitrarily]

/-- **C1, witness** for the amended statement. -/
theorem c1_string_record_equality_witness :
    (1 : Nat) ≠ 2 ∧
      ((DenotableValue.eq (.String ⟨1, [65]⟩) (.String ⟨2, [65]⟩)).1 =
          false ∧
        (DenotableValue.eq (mkRecord 3 [ZERO] 0) (mkRecord 4 [ZERO] 0)).1 =
          ((eqDValueVec [ZERO] [ZERO]).1 && ((0 : Nat) == 0))) :=
  ⟨by decide,
    c1_string_record_equality ⟨1, [65]⟩ ⟨2, [65]⟩ (by decide) 3 4
      [ZERO] [ZERO] 0 0⟩

/-- **C6, counterexample.**  `eq` on two `Function` values does *not* abort
the interpreter: `raise_exception` only prints the internal `Undefined`
diagnostic (second component `true`) and the comparison then returns the
value `false` (first component), so evaluation continues past it. -/
theorem c6_counterexample :
    DenotableValue.eq (.Function .halt) (.Function .halt) = (false, true) := by
  simp [DenotableValue.eq]

/-- **C6 (amended).**  For every pair of `Function` values, `eq` prints the
internal `Undefined` diagnostic and returns `false`; the installed exception
handler is never invoked (the comparison is pure apart from the print) and
the interpreter does not abort — evaluation continues with the `false`
result. -/
theorem c6_function_eq (f g : Continuation) :
    DenotableValue.eq (.Function f) (.Function g) = (false, true) := by
  simp [DenotableValue.eq]

/-- **C7.**  `bind(v, d).lookup(v) = d`; `bind(v, d).bind(v, e).lookup(v) =
e`; and for `u ≠ v`, `bind(v, d)` leaves the binding of `u` unchanged.  The
sharing optimisation of `bind` returns the environment unchanged only when
the existing value compares `eq`-equal, which implies structural equality
(`eq_true_implies_equal`). -/
theorem c7_bind_lookup (env : Environment) (v u : Variable)
    (d e : DenotableValue) (hne : u ≠ v) :
    Environment.get (Environment.bind env v d) v = some d ∧
      Environment.get (Environment.bind (Environment.bind env v d) v e) v =
        some e ∧
      Environment.get (Environment.bind env v d) u =
        Environment.get env u := by
  have key : ∀ (env2 : Environment) (d2 : DenotableValue),
      Environment.get (Environment.bind env2 v d2) v = some d2 := by
    intro env2 d2
    unfold Environment.bind
    cases hg : Environment.get env2 v with
    | none => exact get_insert_self env2 v d2
    | some found =>
      dsimp only
      by_cases heq : (DenotableValue.eq found d2).1 = true
      · rw [if_pos heq, hg, eq_true_implies_equal found d2 heq]
      · rw [if_neg heq]
        exact get_insert_self env2 v d2
  refine ⟨key env d, key (Environment.bind env v d) e, ?_⟩
  unfold Environment.bind
  cases hg : Environment.get env v with
  | none => exact get_insert_ne env v u d hne
  | some found =>
    dsimp only
    by_cases heq : (DenotableValue.eq found d).1 = true
    · rw [if_pos heq]
    · rw [if_neg heq]
      exact get_insert_ne env v u d hne

/-- **C7, witness.** -/
theorem c7_bind_lookup_witness :
    xVar ≠ rVar ∧
      (Environment.get (Environment.bind [] rVar ZERO) rVar = some ZERO ∧
        Environment.get
            (Environment.bind (Environment.bind [] rVar ZERO) rVar
              (.Integer 1)) rVar = some (.Integer 1) ∧
        Environment.get (Environment.bind [] rVar ZERO) xVar =
          Environment.get [] xVar) :=
  ⟨by decide, c7_bind_lookup [] rVar xVar ZERO (.Integer 1) (by decide)⟩

/-- **C8.**  Tagged round-trip: for a non-`Integer` value `v` and in-range
`loc`, `update(loc, v)` succeeds, writes `values[loc]` and leaves
`integer_values` unchanged, and `fetch(loc)` returns `v`; dually
`update_integer(loc, i)` writes `integer_values[loc]`, leaves `values`
unchanged, and `fetch_integer(loc)` returns `Integer(i)`; and an `update`
with an `Integer` value routes to `integer_values`, leaving the tagged slot
untouched. -/
theorem c8_store_roundtrip (s : Store) (loc : Location) (v : DenotableValue)
    (i : Integer) (hv : ∀ n, v ≠ .Integer n) (hloc : loc < s.values.length)
    (hloci : loc < s.integer_values.length) :
    (Store.update s loc v =
        some { s with values := s.values.set loc v } ∧
      Store.fetch { s with values := s.values.set loc v } loc = some v) ∧
    (Store.update_integer s loc i =
        some { s with integer_values := s.integer_values.set loc i } ∧
      Store.fetch_integer
          { s with integer_values := s.integer_values.set loc i } loc =
        some (.Integer i)) ∧
    (∀ j, Store.update s loc (.Integer j) =
      some { s with integer_values := s.integer_values.set loc j }) := by
  refine ⟨⟨?_, ?_⟩, ⟨?_, ?_⟩, ?_⟩
  · unfold Store.update
    cases v
    case Integer n => exact absurd rfl (hv n)
    all_goals rw [if_pos hloc]
  · unfold Store.fetch
    simp [List.getElem?_set_self', hloc]
  · unfold Store.update_integer
    rw [if_pos hloci]
  · unfold Store.fetch_integer
    simp [List.getElem?_set_self', hloci]
  · intro j
    unfold Store.update
    dsimp only
    rw [if_pos hloci]

/-- **C8, witness.** -/
theorem c8_store_roundtrip_witness :
    (∀ n, DenotableValue.String ⟨5, [7]⟩ ≠ .Integer n) ∧
      ((Store.update (Store.mk 0 0 [ZERO] [0]) 0 (.String ⟨5, [7]⟩) =
          some { Store.mk 0 0 [ZERO] [0] with
                   values := [ZERO].set 0 (.String ⟨5, [7]⟩) } ∧
        Store.fetch { Store.mk 0 0 [ZERO] [0] with
                        values := [ZERO].set 0 (.String ⟨5, [7]⟩) } 0 =
          some (.String ⟨5, [7]⟩)) ∧
      (Store.update_integer (Store.mk 0 0 [ZERO] [0]) 0 9 =
          some { Store.mk 0 0 [ZERO] [0] with
                   integer_values := [(0 : Int)].set 0 9 } ∧
        Store.fetch_integer { Store.mk 0 0 [ZERO] [0] with
                                integer_values := [(0 : Int)].set 0 9 } 0 =
          some (.Integer 9)) ∧
      (∀ j, Store.update (Store.mk 0 0 [ZERO] [0]) 0 (.Integer j) =
        some { Store.mk 0 0 [ZERO] [0] with
                 integer_values := [(0 : Int)].set 0 j })) :=
  ⟨(fun n h => by cases h),
    c8_store_roundtrip (Store.mk 0 0 [ZERO] [0]) 0 (.String ⟨5, [7]⟩) 9
      (fun n h => by cases h) (by decide) (by decide)⟩


/-- **C10.**  The store vectors never grow: a successful `update` or
`update_integer` preserves both lengths; a write at a location not below the
corresponding vector's length panics (`none`) instead of allocating; in
particular the write `MakeRef`/`MakeRefUnboxed` performs at
`next_unused_address` aborts the interpreter whenever that address is not a
live index — and `next_location` advances the bump pointer by
`size_of::<DValue>()`, which is larger than one, not by one slot. -/
theorem c10_store_never_grows (s : Store) (loc : Location)
    (v : DenotableValue) (n : Integer) (k : Continuation)
    (ps : List DenotableValue) (fuel : Nat) (hv : ∀ m, v ≠ .Integer m)
    (hloc : s.values.length ≤ loc) (hloci : s.integer_values.length ≤ loc)
    (hnext : s.values.length ≤ s.next_unused_address)
    (hnexti : s.integer_values.length ≤ s.next_unused_address) :
    (∀ loc2 v2 s2, Store.update s loc2 v2 = some s2 →
        s2.values.length = s.values.length ∧
          s2.integer_values.length = s.integer_values.length) ∧
    (∀ loc2 m s2, Store.update_integer s loc2 m = some s2 →
        s2.values.length = s.values.length ∧
          s2.integer_values.length = s.integer_values.length) ∧
    Store.update s loc v = none ∧
    Store.update s loc (.Integer n) = none ∧
    Store.update_integer s loc n = none ∧
    Continuation.call (fuel + 1) (.makeRefCont v k) ps s = .abort ∧
    Continuation.call (fuel + 1) (.makeRefUnboxedCont n k) ps s = .abort ∧
    (∀ l, next_location l = l + dvalue_size) ∧ 1 < dvalue_size := by
  have hupdate_none : Store.update s loc v = none := by
    unfold Store.update
    cases v
    case Integer m => exact absurd rfl (hv m)
    all_goals rw [if_neg (Nat.not_lt.mpr hloc)]
  have hupdate_int_none : ∀ l2, s.integer_values.length ≤ l2 →
      Store.update s l2 (.Integer n) = none := by
    intro l2 hl2
    unfold Store.update
    dsimp only
    rw [if_neg (Nat.not_lt.mpr hl2)]
  have hupdint_none : ∀ l2, s.integer_values.length ≤ l2 →
      Store.update_integer s l2 n = none := by
    intro l2 hl2
    unfold Store.update_integer
    rw [if_neg (Nat.not_lt.mpr hl2)]
  refine ⟨?_, ?_, hupdate_none, hupdate_int_none loc hloci,
    hupdint_none loc hloci, ?_, ?_, fun _ => rfl, by decide⟩
  · intro loc2 v2 s2 h
    unfold Store.update at h
    cases v2 <;> simp only at h <;> split at h <;>
      simp_all <;> subst h <;> simp
  · intro loc2 m s2 h
    unfold Store.update_integer at h
    split at h
    · cases h
      simp
    · cases h
  · show Continuation.call (fuel + 1) (.makeRefCont v k) ps s = .abort
    unfold Continuation.call
    dsimp only
    have hupd : Store.update s s.next_unused_address v = none := by
      unfold Store.update
      cases v
      case Integer m => exact absurd rfl (hv m)
      all_goals rw [if_neg (Nat.not_lt.mpr hnext)]
    rw [hupd]
  · show Continuation.call (fuel + 1) (.makeRefUnboxedCont n k) ps s = .abort
    unfold Continuation.call
    dsimp only
    have hupd : Store.update_integer s s.next_unused_address n = none := by
      unfold Store.update_integer
      rw [if_neg (Nat.not_lt.mpr hnexti)]
    rw [hupd]

/-- **C10, witness.** -/
theorem c10_store_never_grows_witness :
    (∀ m, DenotableValue.String ⟨5, [7]⟩ ≠ .Integer m) ∧
      ((∀ loc2 v2 s2,
          Store.update (Store.mk 0 0 [] []) loc2 v2 = some s2 →
            s2.values.length = (Store.mk 0 0 [] [] : Store).values.length ∧
              s2.integer_values.length =
                (Store.mk 0 0 [] [] : Store).integer_values.length) ∧
        (∀ loc2 m s2,
          Store.update_integer (Store.mk 0 0 [] []) loc2 m = some s2 →
            s2.values.length = (Store.mk 0 0 [] [] : Store).values.length ∧
              s2.integer_values.length =
                (Store.mk 0 0 [] [] : Store).integer_values.length) ∧
        Store.update (Store.mk 0 0 [] []) 0 (.String ⟨5, [7]⟩) = none ∧
        Store.update (Store.mk 0 0 [] []) 0 (.Integer 3) = none ∧
        Store.update_integer (Store.mk 0 0 [] []) 0 3 = none ∧
        Continuation.call 1 (.makeRefCont (.String ⟨5, [7]⟩) .halt) []
            (Store.mk 0 0 [] []) = .abort ∧
        Continuation.call 1 (.makeRefUnboxedCont 3 .halt) []
            (Store.mk 0 0 [] []) = .abort ∧
        (∀ l, next_location l = l + dvalue_size) ∧ 1 < dvalue_size) :=
  ⟨(fun m h => by cases h),
    c10_store_never_grows (Store.mk 0 0 [] []) 0 (.String ⟨5, [7]⟩) 3 .halt
      [] 0 (fun m h => by cases h) (by decide) (by decide) (by decide)
      (by decide)⟩

/-- **C2 (code bug).**  Running scenario S5 — `makeref 0`, then `:= 7`, then
`!`, then `Apply halt` — from a store whose one allocated cell holds tagged
value `Integer 0` and integer cell `0` ends with `halt` receiving
`Integer 0`, not `Integer 7`: `update` routes the `Integer` writes of both
`makeref` and `:=` into `integer_values` (the final integer cell is `7`),
while `!`/`subscript` on an `Array` reads the untouched tagged cell via
`fetch`.  The bump pointer also advances by `size_of::<DValue>()` (40), not
by one. -/
theorem c2_s5_run :
    run 20 s5_term s5_env s5_store =
      .halted [.Integer 0] (Store.mk 40 0 [.Integer 0] [7]) := rfl

/-- **C5, counterexample.**  `Switch` on `Integer 5` with a single arm: the
claim demands the program exception `IndexOutOfBounds`, but the code indexes
`arms[5]` and panics — the interpreter aborts and no `IndexOutOfBounds`
answer is produced. -/
theorem c5_counterexample :
    ContinuationExpression.evaluate 1
        (.Switch (.Integer 5) [.Apply (.Integer 0) []]) [] = .abort ∧
      ContinuationExpression.evaluate 1
          (.Switch (.Integer 5) [.Apply (.Integer 0) []]) [] ≠
        .ok (Exception.as_answer .IndexOutOfBounds) := by
  constructor
  · rfl
  · intro h
    cases h

/-- **C5 (amended).**  `Switch(v, arms)` with `V(v) = Integer(i)` and `0 ≤ i
< |arms|` evaluates `arms[i]` in the same environment; when `V(v)` is not an
`Integer` it raises the program exception `IndexOutOfBounds`; but when
`V(v) = Integer(i)` with `i` outside `[0, |arms|)` the interpreter *aborts*
(the `as usize` cast of a negative `i` wraps modulo `2^64` and the vector
indexing panics) — no program exception is raised. -/
theorem c5_switch_semantics (fuel : Nat) (env : Environment) (v : Value)
    (arms : List ContinuationExpression) :
    (∀ i (hfit : fits_i64 i) (h0 : 0 ≤ i)
        (hV : Environment.value_to_denotable_value env v =
          some (.Integer i))
        (hlt : i.toNat < arms.length),
        ContinuationExpression.evaluate (fuel + 1) (.Switch v arms) env =
          ContinuationExpression.evaluate fuel (arms.get ⟨i.toNat, hlt⟩)
            env) ∧
    (∀ d (hV : Environment.value_to_denotable_value env v = some d)
        (hne : ∀ n, d ≠ .Integer n),
        ContinuationExpression.evaluate (fuel + 1) (.Switch v arms) env =
          .ok (Exception.as_answer .IndexOutOfBounds)) ∧
    (∀ i (hfit : fits_i64 i)
        (hV : Environment.value_to_denotable_value env v =
          some (.Integer i))
        (harms : arms.length ≤ 2 ^ 63)
        (hout : ¬(0 ≤ i ∧ i.toNat < arms.length)),
        ContinuationExpression.evaluate (fuel + 1) (.Switch v arms) env =
          .abort) := by
  refine ⟨?_, ?_, ?_⟩
  · intro i hfit h0 hV hlt
    conv_lhs => unfold ContinuationExpression.evaluate
    dsimp only
    rw [hV]
    dsimp only
    have htu : toUsize i = i.toNat := by
      refine toUsize_of_nonneg_small i h0 ?_
      unfold fits_i64 i64_max at hfit
      omega
    rw [htu, List.get?_eq_getElem?,
        List.getElem?_eq_getElem hlt]
    rfl
  · intro d hV hne
    unfold ContinuationExpression.evaluate
    dsimp only
    rw [hV]
    cases d
    case Integer m => exact absurd rfl (hne m)
    all_goals rfl
  · intro i hfit hV harms hout
    unfold ContinuationExpression.evaluate
    dsimp only
    rw [hV]
    dsimp only
    have hnone : arms.get? (toUsize i) = none := by
      rw [List.get?_eq_getElem?, List.getElem?_eq_none]
      by_cases h0 : 0 ≤ i
      · have htu : toUsize i = i.toNat := by
          refine toUsize_of_nonneg_small i h0 ?_
          unfold fits_i64 i64_max at hfit
          omega
        omega
      · have := toUsize_lower_of_neg i hfit.1 (by omega)
        omega
    rw [hnone]

/-- **C5, witness** for the amended statement (the in-range and non-integer
conjuncts at concrete inputs). -/
theorem c5_switch_semantics_witness :
    fits_i64 0 ∧
      (ContinuationExpression.evaluate 1
          (.Switch (.Integer 0) [.Apply (.Integer 0) []]) [] =
        ContinuationExpression.evaluate 0
          ([ContinuationExpression.Apply (.Integer 0) []].get ⟨0, by decide⟩)
          []) ∧
      (ContinuationExpression.evaluate 1
          (.Switch (.String ⟨1, []⟩) [.Apply (.Integer 0) []]) [] =
        .ok (Exception.as_answer .IndexOutOfBounds)) :=
  ⟨by decide,
    (c5_switch_semantics 0 [] (.Integer 0)
        [.Apply (.Integer 0) []]).1 0 (by decide) (by decide) rfl (by decide),
    (c5_switch_semantics 0 [] (.String ⟨1, []⟩)
        [.Apply (.Integer 0) []]).2.1 (.String ⟨1, []⟩) rfl
      (fun n h => by cases h)⟩

/-- **C9, counterexample.**  At `i = 0`, `j = -1` the code takes the *then*
continuation, but the claim's disjunction `(j<0 ∧ i<0 ∧ i<j) ∨ (j≥0 ∧ i≥0 ∧
i<j)` is false there: the stated expansion omits the case `j<0 ∧ i≥0`, in
which the unsigned comparison `0 ≤ i < j` holds. -/
theorem c9_counterexample :
    PrimitiveOp.evaluate 1 .RangeCheck [.Integer 0, .Integer (-1)]
        [.halt, .exceptionCont] = .ok ⟨.halt, []⟩ ∧
      ¬((((-1 : Int) < 0) ∧ ((0 : Int) < 0) ∧ ((0 : Int) < -1)) ∨
        ((0 : Int) ≤ -1 ∧ (0 : Int) ≤ 0 ∧ (0 : Int) < -1)) :=
  ⟨rfl, by decide⟩

/-- **C9 (amended).**  `rangechk i j` takes the *then* continuation exactly
when `i < j` as unsigned 64-bit values, i.e. when `(j<0 ∧ i<0 ∧ i<j) ∨ (j≥0
∧ i≥0 ∧ i<j) ∨ (j<0 ∧ i≥0)` — the last disjunct is missing from the
claim's expansion. -/
theorem c9_rangecheck (fuel : Nat) (i j : Int) (t f : Continuation)
    (hi : fits_i64 i) (hj : fits_i64 j) :
    PrimitiveOp.evaluate (fuel + 1) .RangeCheck [.Integer i, .Integer j]
        [t, f] =
      .ok ⟨if (j < 0 ∧ i < 0 ∧ i < j) ∨ (0 ≤ j ∧ 0 ≤ i ∧ i < j) ∨
             (j < 0 ∧ 0 ≤ i) then t else f, []⟩ := by
  have hstep : PrimitiveOp.evaluate (fuel + 1) .RangeCheck
      [.Integer i, .Integer j] [t, f] =
      if j < 0 then
        if i < 0 then
          if i < j then .ok ⟨t, []⟩ else .ok ⟨f, []⟩
        else .ok ⟨t, []⟩
      else if i < 0 then .ok ⟨f, []⟩
      else if i < j then .ok ⟨t, []⟩
      else .ok ⟨f, []⟩ := rfl
  rw [hstep]
  split_ifs <;> first | rfl | omega

/-- **C9, witness.** -/
theorem c9_rangecheck_witness :
    fits_i64 3 ∧ fits_i64 7 ∧
      PrimitiveOp.evaluate 1 .RangeCheck [.Integer 3, .Integer 7]
          [.halt, .exceptionCont] =
        .ok ⟨if ((7 : Int) < 0 ∧ (3 : Int) < 0 ∧ (3 : Int) < 7) ∨
               ((0 : Int) ≤ 7 ∧ (0 : Int) ≤ 3 ∧ (3 : Int) < 7) ∨
               ((7 : Int) < 0 ∧ (0 : Int) ≤ 3) then Continuation.halt
             else Continuation.exceptionCont, []⟩ :=
  ⟨by decide, by decide,
    c9_rangecheck 0 3 7 .halt .exceptionCont (by decide) (by decide)⟩


/-- **C4.**  Checked `i64` arithmetic: `*`, `+`, `-` and unary `~` pass the
exact mathematical result to their continuation whenever it fits the
two's-complement `i64` range and raise `Overflow` otherwise; `div` by `0`
raises `DivideByZero`, and otherwise `div` passes the quotient truncated
toward zero (the exact mathematical quotient whenever the division is
exact), raising `Overflow` in the single non-fitting case `i64::MIN / -1`. -/
theorem c4_checked_arithmetic (fuel : Nat) (i j : Int) (k : Continuation)
    (hi : fits_i64 i) (hj : fits_i64 j) :
    (PrimitiveOp.evaluate (fuel + 1) .Multiply [.Integer i, .Integer j] [k] =
        if fits_i64 (i * j) then .ok ⟨k, [.Integer (i * j)]⟩
        else .ok (Exception.as_answer .Overflow)) ∧
    (PrimitiveOp.evaluate (fuel + 1) .Add [.Integer i, .Integer j] [k] =
        if fits_i64 (i + j) then .ok ⟨k, [.Integer (i + j)]⟩
        else .ok (Exception.as_answer .Overflow)) ∧
    (PrimitiveOp.evaluate (fuel + 1) .Subtract [.Integer i, .Integer j] [k] =
        if fits_i64 (i - j) then .ok ⟨k, [.Integer (i - j)]⟩
        else .ok (Exception.as_answer .Overflow)) ∧
    (PrimitiveOp.evaluate (fuel + 1) .Divide [.Integer i, .Integer j] [k] =
        if j = 0 then .ok (Exception.as_answer .DivideByZero)
        else if fits_i64 (Int.tdiv i j) then
          .ok ⟨k, [.Integer (Int.tdiv i j)]⟩
        else .ok (Exception.as_answer .Overflow)) ∧
    (PrimitiveOp.evaluate (fuel + 1) .Tilde [.Integer i] [k] =
        if fits_i64 (0 - i) then .ok ⟨k, [.Integer (0 - i)]⟩
        else .ok (Exception.as_answer .Overflow)) := by
  refine ⟨?_, ?_, ?_, ?_, ?_⟩
  · have hstep : PrimitiveOp.evaluate (fuel + 1) .Multiply
        [.Integer i, .Integer j] [k] =
        match checked_mul i j with
        | some k2 => .ok ⟨k, [.Integer k2]⟩
        | none => .ok (Exception.as_answer .Overflow) := rfl
    rw [hstep]
    unfold checked_mul
    split_ifs <;> rfl
  · have hstep : PrimitiveOp.evaluate (fuel + 1) .Add
        [.Integer i, .Integer j] [k] =
        match checked_add i j with
        | some k2 => .ok ⟨k, [.Integer k2]⟩
        | none => .ok (Exception.as_answer .Overflow) := rfl
    rw [hstep]
    unfold checked_add
    split_ifs <;> rfl
  · have hstep : PrimitiveOp.evaluate (fuel + 1) .Subtract
        [.Integer i, .Integer j] [k] =
        match checked_sub i j with
        | some k2 => .ok ⟨k, [.Integer k2]⟩
        | none => .ok (Exception.as_answer .Overflow) := rfl
    rw [hstep]
    unfold checked_sub
    split_ifs <;> rfl
  · by_cases hj0 : j = 0
    · subst hj0
      have hstep : PrimitiveOp.evaluate (fuel + 1) .Divide
          [.Integer i, .Integer 0] [k] =
          .ok (Exception.as_answer .DivideByZero) := rfl
      rw [hstep, if_pos rfl]
    · have hstep : PrimitiveOp.evaluate (fuel + 1) .Divide
          [.Integer i, .Integer j] [k] =
          match checked_div i j with
          | some k2 => .ok ⟨k, [.Integer k2]⟩
          | none => .ok (Exception.as_answer .Overflow) := by
        rcases j with n | n
        · cases n with
          | zero => exact absurd rfl hj0
          | succ m => rfl
        · rfl
      rw [hstep]
      unfold checked_div
      rw [if_neg hj0]
      by_cases hexc : i = i64_min ∧ j = -1
      · rw [if_pos hexc]
        obtain ⟨hi2, hj2⟩ := hexc
        subst hi2
        subst hj2
        rw [if_neg hj0,
            if_neg (show ¬ fits_i64 (Int.tdiv i64_min (-1)) by decide)]
      · rw [if_neg hexc, if_neg hj0,
            if_pos (tdiv_fits i j hi hj hj0 hexc)]
  · have hstep : PrimitiveOp.evaluate (fuel + 1) .Tilde [.Integer i] [k] =
        match checked_sub 0 i with
        | some k2 => .ok ⟨k, [.Integer k2]⟩
        | none => .ok (Exception.as_answer .Overflow) := rfl
    rw [hstep]
    unfold checked_sub
    split_ifs <;> rfl

/-- **C4, witness.** -/
theorem c4_checked_arithmetic_witness :
    fits_i64 41 ∧ fits_i64 (-7) ∧
      ((PrimitiveOp.evaluate 1 .Multiply [.Integer 41, .Integer (-7)]
            [.halt] =
          if fits_i64 (41 * (-7) : Int) then
            .ok ⟨.halt, [.Integer (41 * (-7) : Int)]⟩
          else .ok (Exception.as_answer .Overflow)) ∧
        (PrimitiveOp.evaluate 1 .Add [.Integer 41, .Integer (-7)] [.halt] =
          if fits_i64 (41 + -7 : Int) then
            .ok ⟨.halt, [.Integer (41 + -7 : Int)]⟩
          else .ok (Exception.as_answer .Overflow)) ∧
        (PrimitiveOp.evaluate 1 .Subtract [.Integer 41, .Integer (-7)]
            [.halt] =
          if fits_i64 (41 - -7 : Int) then
            .ok ⟨.halt, [.Integer (41 - -7 : Int)]⟩
          else .ok (Exception.as_answer .Overflow)) ∧
        (PrimitiveOp.evaluate 1 .Divide [.Integer 41, .Integer (-7)]
            [.halt] =
          if (-7 : Int) = 0 then .ok (Exception.as_answer .DivideByZero)
          else if fits_i64 (Int.tdiv 41 (-7)) then
            .ok ⟨.halt, [.Integer (Int.tdiv 41 (-7))]⟩
          else .ok (Exception.as_answer .Overflow)) ∧
        (PrimitiveOp.evaluate 1 .Tilde [.Integer 41] [.halt] =
          if fits_i64 (0 - 41 : Int) then
            .ok ⟨.halt, [.Integer (0 - 41 : Int)]⟩
          else .ok (Exception.as_answer .Overflow))) :=
  ⟨by decide, by decide,
    c4_checked_arithmetic 0 41 (-7) .halt (by decide) (by decide)⟩

/-- **C3.**  For `Fix(fl, e)` under ambient environment `R`: evaluation of
the `Fix` proceeds with `e` under `g(R, fl)`, which (for distinct definition
names) binds *every* `f_j ∈ fl` to its closure; and applying the closure
`C_i` of any definition to actual arguments evaluates its body `B_i` under
`g(R, fl)` further extended by binding the formal parameters to the actuals
— so every body sees all the mutually recursive functions. -/
theorem c3_fix_mutual_recursion (fuel : Nat) (env : Environment)
    (fl : List FunctionDefinition) (e : ContinuationExpression)
    (fd : FunctionDefinition) (actuals : List DenotableValue) (store : Store)
    (hmem : fd ∈ fl) (hnd : (fl.map FunctionDefinition.name).Nodup) :
    Environment.get (gFix env fl) fd.name =
      some (.Function (.fixCont env fd fl)) ∧
    ContinuationExpression.evaluate (fuel + 1) (.Fix fl e) env =
      ContinuationExpression.evaluate fuel e (gFix env fl) ∧
    Continuation.call (fuel + 1) (.fixCont env fd fl) actuals store =
      (match ContinuationExpression.evaluate fuel fd.body
          (Environment.bindn (gFix env fl) fd.formal_parameters actuals) with
        | .ok a => Continuation.call fuel a.f a.parameters store
        | .abort => .abort
        | .timeout => .timeout) :=
  ⟨get_gFix env fl fd hmem hnd, rfl, rfl⟩

/-- **C3, witness.**  The first conjunct of `c3_fix_mutual_recursion` at a
concrete one-definition `Fix`. -/
theorem c3_fix_mutual_recursion_witness :
    FunctionDefinition.mk rVar [] (.Apply (.Integer 0) []) ∈
        [FunctionDefinition.mk rVar [] (.Apply (.Integer 0) [])] ∧
      (([FunctionDefinition.mk rVar [] (.Apply (.Integer 0) [])].map
          FunctionDefinition.name).Nodup) ∧
      Environment.get
          (gFix [] [FunctionDefinition.mk rVar [] (.Apply (.Integer 0) [])])
          (FunctionDefinition.mk rVar [] (.Apply (.Integer 0) [])).name =
        some (.Function (.fixCont []
          (FunctionDefinition.mk rVar [] (.Apply (.Integer 0) []))
          [FunctionDefinition.mk rVar [] (.Apply (.Integer 0) [])])) :=
  ⟨List.mem_singleton.mpr rfl, by simp,
    (c3_fix_mutual_recursion 0 []
      [FunctionDefinition.mk rVar [] (.Apply (.Integer 0) [])]
      (.Apply (.Integer 1) [])
      (FunctionDefinition.mk rVar [] (.Apply (.Integer 0) [])) [] s5_store
      (List.mem_singleton.mpr rfl) (by simp)).1⟩

end CPS
